import Mathlib

/-!
Verification of the classification-evaluation metrics core of the
`classification_evaluation` notebooks.

The embedding follows the notebook cells:
* the confusion-matrix tally `tp/fp/tn/fn = np.sum((y == a) & (predicted == b))`,
* the derived ratios (accuracy, precision, recall, specificity, FPR, F1),
* the threshold rule `1 if score >= t else 0` from the lab notebook,
* `baseline_acc = 1. - mean(is_spam)`.

Label and prediction vectors are `List ℕ` (values 0/1), score vectors are
`List ℚ`, ratios are `ℚ`.  The spec's MetricsEngine error signalling
(ValidationError / UndefinedMetricError / DegenerateInputError) and the
ROC/AUC sweep, which the notebooks delegate to an external library, are
modelled from the spec where noted.
-/

namespace ClassificationEval

/-- Confusion-matrix counts: the four cells of the binary confusion matrix. -/
structure ConfusionCounts where
  tp : ℕ
  fp : ℕ
  tn : ℕ
  fn : ℕ
  deriving DecidableEq, Repr

/-- One cell of the tally: the source computes `np.sum((y == a) & (predicted == b))`,
the count of aligned positions where the label equals `a` and the prediction
equals `b`.  Index alignment of the two vectors is captured by `List.zip`. -/
def tallyCell (a b : ℕ) (y predicted : List ℕ) : ℕ :=
  (y.zip predicted).countP fun q => q.1 == a && q.2 == b

/-- The confusion-matrix tally of the source notebook:
`tp = np.sum((y == 1) & (predicted == 1))`, `fp = np.sum((y == 0) & (predicted == 1))`,
`tn = np.sum((y == 0) & (predicted == 0))`, `fn = np.sum((y == 1) & (predicted == 0))`. -/
def confusionCells (y predicted : List ℕ) : ConfusionCounts :=
  { tp := tallyCell 1 1 y predicted
    fp := tallyCell 0 1 y predicted
    tn := tallyCell 0 0 y predicted
    fn := tallyCell 1 0 y predicted }

theorem countP_range_succ (f : ℕ → Bool) (n : ℕ) :
    (List.range (n + 1)).countP f =
      (if f 0 then 1 else 0) + (List.range n).countP fun i => f (i + 1) := by
  rw [List.range_succ_eq_map, List.countP_cons, List.countP_map, Nat.add_comm]
  rfl

theorem countP_zip_eq_countP_range (q : ℕ → ℕ → Bool) :
    ∀ (y predicted : List ℕ), y.length = predicted.length →
      (y.zip predicted).countP (fun ab => q ab.1 ab.2) =
        (List.range y.length).countP fun i => q (y.getD i 0) (predicted.getD i 0) := by
  intro y
  induction y with
  | nil => intro predicted _; simp
  | cons a ytl ih =>
    intro predicted h
    cases predicted with
    | nil => simp at h
    | cons b ptl =>
      have hlen : ytl.length = ptl.length := by simpa using h
      rw [List.zip_cons_cons, List.countP_cons, List.length_cons,
        countP_range_succ]
      simp only [List.getD_cons_zero, List.getD_cons_succ]
      rw [ih ptl hlen]
      omega

/-- Claim C1: for equal-length vectors, the confusion-matrix tally returns
`tp` equal to the number of indices where label = 1 and prediction = 1,
`fp` where label = 0 and prediction = 1, `tn` where label = 0 and
prediction = 0, and `fn` where label = 1 and prediction = 0.
It is a pure function of the two input lists (a Lean `def` has no side
effects). -/
theorem claim_C1_tally_counts (y predicted : List ℕ)
    (h : y.length = predicted.length) :
    (confusionCells y predicted).tp =
      ((List.range y.length).countP fun i => y.getD i 0 == 1 && predicted.getD i 0 == 1) ∧
    (confusionCells y predicted).fp =
      ((List.range y.length).countP fun i => y.getD i 0 == 0 && predicted.getD i 0 == 1) ∧
    (confusionCells y predicted).tn =
      ((List.range y.length).countP fun i => y.getD i 0 == 0 && predicted.getD i 0 == 0) ∧
    (confusionCells y predicted).fn =
      ((List.range y.length).countP fun i => y.getD i 0 == 1 && predicted.getD i 0 == 0) := by
  refine ⟨?_, ?_, ?_, ?_⟩ <;>
    exact countP_zip_eq_countP_range (fun u v => u == _ && v == _) y predicted h

/-- Witness for C1 at labels `[1, 1, 0, 0, 1, 0]`, predictions
`[1, 0, 0, 1, 1, 0]` (the spec's concrete scenario, where the counts are
tp = 2, fp = 1, tn = 2, fn = 1). -/
theorem claim_C1_witness :
    (confusionCells [1, 1, 0, 0, 1, 0] [1, 0, 0, 1, 1, 0]).tp =
      ((List.range (6 : ℕ)).countP fun i =>
        ([1, 1, 0, 0, 1, 0] : List ℕ).getD i 0 == 1 &&
        ([1, 0, 0, 1, 1, 0] : List ℕ).getD i 0 == 1) :=
  (claim_C1_tally_counts [1, 1, 0, 0, 1, 0] [1, 0, 0, 1, 1, 0] (by decide)).1

/-- Error kinds of the MetricsEngine, from the spec's error-handling design:
ValidationError, UndefinedMetricError, DegenerateInputError. -/
inductive MetricError where
  | validationError
  | undefinedMetricError
  | degenerateInputError
  deriving DecidableEq, Repr

/-- A vector is valid when every entry is 0 or 1. -/
def validBinary (v : List ℕ) : Bool :=
  v.all fun x => x == 0 || x == 1

/-- Modelled from the spec: the tally contract "fails with ValidationError if
lengths differ or any value is outside \x7b0,1\x7d" and on empty input; the
notebook cell computes the four `np.sum` counts with no validation wrapper,
so the guard is taken from the spec and the counts from the source. -/
def confusionTally (y predicted : List ℕ) : Except MetricError ConfusionCounts :=
  if y.length == predicted.length && validBinary y && validBinary predicted
      && !y.isEmpty then
    .ok (confusionCells y predicted)
  else
    .error .validationError

/-- Source: `total_population = tp + fp + tn + fn`. -/
def total_population (c : ConfusionCounts) : ℕ :=
  c.tp + c.fp + c.tn + c.fn

/-- Source: `float(tp + tn) / total_population`. -/
def accuracy (c : ConfusionCounts) : ℚ :=
  ((c.tp : ℚ) + (c.tn : ℚ)) / (total_population c : ℚ)

/-- Ratio from the source, `float(tp) / (tp + fp)`; the UndefinedMetricError
guard for a zero denominator is modelled from the spec (the notebook would
divide by zero). -/
def precision (c : ConfusionCounts) : Except MetricError ℚ :=
  if c.tp + c.fp = 0 then .error .undefinedMetricError
  else .ok ((c.tp : ℚ) / ((c.tp : ℚ) + (c.fp : ℚ)))

/-- Ratio from the source, `recall_1 = float(tp) / (tp + fn)` (the source's
own name, since `recall` is a Lean command); zero-denominator guard modelled
from the spec. -/
def recall_1 (c : ConfusionCounts) : Except MetricError ℚ :=
  if c.tp + c.fn = 0 then .error .undefinedMetricError
  else .ok ((c.tp : ℚ) / ((c.tp : ℚ) + (c.fn : ℚ)))

/-- Ratio from the source, `specificity = float(tn) / (tn + fp)`;
zero-denominator guard modelled from the spec. -/
def specificity (c : ConfusionCounts) : Except MetricError ℚ :=
  if c.tn + c.fp = 0 then .error .undefinedMetricError
  else .ok ((c.tn : ℚ) / ((c.tn : ℚ) + (c.fp : ℚ)))

/-- Ratio from the source, `float(fp) / (tn + fp)`; zero-denominator guard
modelled from the spec. -/
def falsePositiveRate (c : ConfusionCounts) : Except MetricError ℚ :=
  if c.tn + c.fp = 0 then .error .undefinedMetricError
  else .ok ((c.fp : ℚ) / ((c.tn : ℚ) + (c.fp : ℚ)))

/-- F1 as in the source, `f1_1 = 2/(1/recall_1 + 1/precision_1)`, written in
the equivalent product form `2·p·r/(p + r)` of the spec; error propagation
and the zero-denominator guard are modelled from the spec. -/
def f1 (c : ConfusionCounts) : Except MetricError ℚ :=
  match precision c, recall_1 c with
  | .ok p, .ok r =>
      if p + r = 0 then .error .undefinedMetricError
      else .ok (2 * p * r / (p + r))
  | _, _ => .error .undefinedMetricError

/-- Claim C2: precision is UndefinedMetricError exactly when tp + fp = 0,
recall exactly when tp + fn = 0, specificity exactly when tn + fp = 0; and in
the concrete scenario labels = [1,1,1,1], predictions = [1,1,1,1] the tally
gives tn = 0 and fp = 0, so specificity and the false-positive rate are both
UndefinedMetricError. -/
theorem claim_C2_undefined_metrics :
    (∀ c : ConfusionCounts,
      (precision c = .error .undefinedMetricError ↔ c.tp + c.fp = 0) ∧
      (recall_1 c = .error .undefinedMetricError ↔ c.tp + c.fn = 0) ∧
      (specificity c = .error .undefinedMetricError ↔ c.tn + c.fp = 0)) ∧
    (confusionCells [1, 1, 1, 1] [1, 1, 1, 1]).tn = 0 ∧
    (confusionCells [1, 1, 1, 1] [1, 1, 1, 1]).fp = 0 ∧
    specificity (confusionCells [1, 1, 1, 1] [1, 1, 1, 1]) =
      .error .undefinedMetricError ∧
    falsePositiveRate (confusionCells [1, 1, 1, 1] [1, 1, 1, 1]) =
      .error .undefinedMetricError := by
  refine ⟨fun c => ⟨?_, ?_, ?_⟩, rfl, rfl, rfl, rfl⟩ <;>
    · simp only [precision, recall_1, specificity]
      split <;> simp_all

/-- Claim C3: the validated tally fails with ValidationError when the lengths
differ, when a value is outside \x7b0,1\x7d, or when the input is empty, and
returns the counts on valid input. -/
theorem claim_C3_validation (y predicted : List ℕ) :
    (y.length ≠ predicted.length ∨ validBinary y = false ∨
        validBinary predicted = false ∨ y = [] →
      confusionTally y predicted = .error .validationError) ∧
    (y.length = predicted.length → validBinary y = true →
        validBinary predicted = true → y ≠ [] →
      confusionTally y predicted = .ok (confusionCells y predicted)) := by
  have hemp : y.isEmpty = false ↔ y ≠ [] := by cases y <;> simp
  unfold confusionTally
  constructor
  · intro h
    split
    case isTrue hcond =>
      simp only [Bool.and_eq_true, beq_iff_eq, Bool.not_eq_true', hemp]
        at hcond
      rcases h with h | h | h | h <;> simp_all
    case isFalse => rfl
  · intro h1 h2 h3 h4
    split
    case isTrue => rfl
    case isFalse hcond =>
      simp only [Bool.and_eq_true, beq_iff_eq, Bool.not_eq_true', hemp]
        at hcond
      exact absurd ⟨⟨⟨h1, h2⟩, h3⟩, h4⟩ hcond

/-- Witness for C3: mismatched lengths are rejected and the spec's concrete
valid scenario is accepted with its counts. -/
theorem claim_C3_witness :
    confusionTally [0, 1] [1] = .error .validationError ∧
    confusionTally [1, 1, 0, 0, 1, 0] [1, 0, 0, 1, 1, 0] =
      .ok (confusionCells [1, 1, 0, 0, 1, 0] [1, 0, 0, 1, 1, 0]) :=
  ⟨(claim_C3_validation [0, 1] [1]).1 (Or.inl (by decide)),
   (claim_C3_validation [1, 1, 0, 0, 1, 0] [1, 0, 0, 1, 1, 0]).2
     (by decide) (by decide) (by decide) (by decide)⟩

theorem validBinary_mem {v : List ℕ} (hv : validBinary v = true)
    {x : ℕ} (hx : x ∈ v) : x = 0 ∨ x = 1 := by
  have := (List.all_eq_true.mp hv) x hx
  simpa using this

theorem countP_partition (l : List (ℕ × ℕ))
    (hb : ∀ ab ∈ l, (ab.1 = 0 ∨ ab.1 = 1) ∧ (ab.2 = 0 ∨ ab.2 = 1)) :
    (l.countP fun q => q.1 == 1 && q.2 == 1) +
    (l.countP fun q => q.1 == 0 && q.2 == 1) +
    (l.countP fun q => q.1 == 0 && q.2 == 0) +
    (l.countP fun q => q.1 == 1 && q.2 == 0) = l.length := by
  induction l with
  | nil => simp
  | cons ab tl ih =>
    have hab := hb ab (List.mem_cons_self ab tl)
    have htl : ∀ x ∈ tl, (x.1 = 0 ∨ x.1 = 1) ∧ (x.2 = 0 ∨ x.2 = 1) :=
      fun x hx => hb x (List.mem_cons_of_mem ab hx)
    have hsum := ih htl
    rcases hab with ⟨h1 | h1, h2 | h2⟩ <;>
      simp only [List.countP_cons, List.length_cons, h1, h2] <;>
      norm_num <;> omega

/-- Claim C4: whenever the validated tally returns counts for vectors of
length N, the four counts satisfy tp + fp + tn + fn = N exactly. -/
theorem claim_C4_counts_sum (y predicted : List ℕ) (c : ConfusionCounts)
    (h : confusionTally y predicted = .ok c) :
    c.tp + c.fp + c.tn + c.fn = y.length := by
  unfold confusionTally at h
  split at h
  case isFalse => exact absurd h (by simp)
  case isTrue hcond =>
    simp only [Bool.and_eq_true, beq_iff_eq] at hcond
    obtain ⟨⟨⟨hlen, hy⟩, hp⟩, -⟩ := hcond
    have hc : c = confusionCells y predicted := by
      cases h; rfl
    subst hc
    have hb : ∀ ab ∈ y.zip predicted,
        (ab.1 = 0 ∨ ab.1 = 1) ∧ (ab.2 = 0 ∨ ab.2 = 1) := by
      intro ab hab
      obtain ⟨ha, hb2⟩ := List.of_mem_zip hab
      exact ⟨validBinary_mem hy ha, validBinary_mem hp hb2⟩
    have := countP_partition (y.zip predicted) hb
    simp only [confusionCells, tallyCell] at *
    rw [this, List.length_zip, hlen, Nat.min_self]

/-- Witness for C4 on the spec's concrete scenario
labels = [1,1,0,0,1,0], predictions = [1,0,0,1,1,0]. -/
theorem claim_C4_witness :
    confusionTally [1, 1, 0, 0, 1, 0] [1, 0, 0, 1, 1, 0] =
      .ok ⟨2, 1, 2, 1⟩ ∧
    (2 : ℕ) + 1 + 2 + 1 = ([1, 1, 0, 0, 1, 0] : List ℕ).length :=
  ⟨by rfl,
   claim_C4_counts_sum [1, 1, 0, 0, 1, 0] [1, 0, 0, 1, 1, 0] ⟨2, 1, 2, 1⟩
     (by rfl)⟩

theorem precision_nonneg (c : ConfusionCounts) (p : ℚ)
    (hp : precision c = .ok p) : 0 ≤ p := by
  unfold precision at hp
  split at hp
  case isTrue => exact absurd hp (by simp)
  case isFalse =>
    obtain rfl : _ = p := by injection hp
    positivity

theorem recall_nonneg (c : ConfusionCounts) (r : ℚ)
    (hr : recall_1 c = .ok r) : 0 ≤ r := by
  unfold recall_1 at hr
  split at hr
  case isTrue => exact absurd hr (by simp)
  case isFalse =>
    obtain rfl : _ = r := by injection hr
    positivity

theorem harmonic_between (p r : ℚ) (hp : 0 ≤ p) (hr : 0 ≤ r)
    (hpr : 0 < p + r) :
    min p r ≤ 2 * p * r / (p + r) ∧ 2 * p * r / (p + r) ≤ max p r := by
  constructor
  · rcases le_total p r with h | h
    · rw [min_eq_left h, le_div_iff₀ hpr]; nlinarith
    · rw [min_eq_right h, le_div_iff₀ hpr]; nlinarith
  · rcases le_total p r with h | h
    · rw [max_eq_right h, div_le_iff₀ hpr]; nlinarith
    · rw [max_eq_left h, div_le_iff₀ hpr]; nlinarith

/-- Claim C5: F1 propagates UndefinedMetricError when precision or recall is
undefined; when both are defined it is UndefinedMetricError exactly when
precision + recall = 0, and otherwise returns 2·p·r/(p + r), which lies
between min(p, r) and max(p, r). -/
theorem claim_C5_f1 (c : ConfusionCounts) :
    ((precision c = .error .undefinedMetricError ∨
        recall_1 c = .error .undefinedMetricError) →
      f1 c = .error .undefinedMetricError) ∧
    ∀ p r : ℚ, precision c = .ok p → recall_1 c = .ok r →
      ((f1 c = .error .undefinedMetricError ↔ p + r = 0) ∧
       (p + r ≠ 0 →
         f1 c = .ok (2 * p * r / (p + r)) ∧
         min p r ≤ 2 * p * r / (p + r) ∧
         2 * p * r / (p + r) ≤ max p r)) := by
  constructor
  · rintro (h | h)
    · cases hr : recall_1 c <;> simp [f1, h, hr]
    · cases hp : precision c <;> simp [f1, hp, h]
  · intro p r hp hr
    have hf : f1 c = if p + r = 0 then .error .undefinedMetricError
        else .ok (2 * p * r / (p + r)) := by
      simp [f1, hp, hr]
    constructor
    · rw [hf]; split <;> simp_all
    · intro hpr
      have hp0 := precision_nonneg c p hp
      have hr0 := recall_nonneg c r hr
      have hpos : 0 < p + r := lt_of_le_of_ne (by positivity) (Ne.symm hpr)
      obtain ⟨h1, h2⟩ := harmonic_between p r hp0 hr0 hpos
      exact ⟨by rw [hf, if_neg hpr], h1, h2⟩

/-- Witness for C5 on the spec's concrete scenario counts
tp = 2, fp = 1, tn = 2, fn = 1, where precision = recall = 2/3. -/
theorem claim_C5_witness :
    f1 ⟨2, 1, 2, 1⟩ = .ok (2 * (2 / 3 : ℚ) * (2 / 3) / (2 / 3 + 2 / 3)) ∧
    min (2 / 3 : ℚ) (2 / 3) ≤ 2 * (2 / 3 : ℚ) * (2 / 3) / (2 / 3 + 2 / 3) ∧
    2 * (2 / 3 : ℚ) * (2 / 3) / (2 / 3 + 2 / 3) ≤ max (2 / 3 : ℚ) (2 / 3) :=
  ((claim_C5_f1 ⟨2, 1, 2, 1⟩).2 (2 / 3) (2 / 3)
    (by norm_num [precision]) (by norm_num [recall_1])).2 (by norm_num)

/-- The lab notebook's threshold rule,
`[1 if i >= threshold - 0.1 else 0 for i in Y_pp.values]`: pointwise,
an entry is classified 1 exactly when its score is ≥ the threshold. -/
def thresholdClassify (scores : List ℚ) (t : ℚ) : List ℕ :=
  scores.map fun s => if t ≤ s then 1 else 0

theorem thresholdClassify_getD (scores : List ℚ) (t : ℚ) :
    ∀ i, i < scores.length →
      (thresholdClassify scores t).getD i 0 =
        if t ≤ scores.getD i 0 then 1 else 0 := by
  induction scores with
  | nil => intro i hi; simp at hi
  | cons s tl ih =>
    intro i hi
    cases i with
    | zero => simp [thresholdClassify]
    | succ j =>
      have hj : j < tl.length := by simpa using hi
      simpa [thresholdClassify] using ih j hj

/-- Claim C6: threshold-parameterized classification yields a vector of the
same length whose i-th entry is 1 exactly when score[i] ≥ t (ties at the
threshold classified positive); it is a pure function applied pointwise. -/
theorem claim_C6_threshold_pointwise (scores : List ℚ) (t : ℚ) :
    (thresholdClassify scores t).length = scores.length ∧
    ∀ i, i < scores.length →
      ((thresholdClassify scores t).getD i 0 = 1 ↔ t ≤ scores.getD i 0) ∧
      ((thresholdClassify scores t).getD i 0 = 0 ∨
       (thresholdClassify scores t).getD i 0 = 1) := by
  refine ⟨by simp [thresholdClassify], fun i hi => ?_⟩
  rw [thresholdClassify_getD scores t i hi]
  split <;> simp_all

/-- Witness for C6: with scores [9/10, 1/10] and threshold 1/2 = the default
0.5 cutpoint, the first entry is classified positive. -/
theorem claim_C6_witness :
    ((thresholdClassify [(9 : ℚ) / 10, 1 / 10] (1 / 2)).getD 0 0 = 1 ↔
      (1 / 2 : ℚ) ≤ ([(9 : ℚ) / 10, 1 / 10]).getD 0 0) ∧
    ((thresholdClassify [(9 : ℚ) / 10, 1 / 10] (1 / 2)).getD 0 0 = 0 ∨
     (thresholdClassify [(9 : ℚ) / 10, 1 / 10] (1 / 2)).getD 0 0 = 1) :=
  (claim_C6_threshold_pointwise [(9 : ℚ) / 10, 1 / 10] (1 / 2)).2 0
    (by norm_num)

/-- Relabeling with the complementary class: 0 ↔ 1. -/
def flipClass (x : ℕ) : ℕ := 1 - x

theorem tallyCell_flip (a b : ℕ)
    (ha : a = 0 ∨ a = 1) (hb : b = 0 ∨ b = 1) (y predicted : List ℕ)
    (hy : validBinary y = true) (hp : validBinary predicted = true) :
    tallyCell a b (y.map flipClass) (predicted.map flipClass) =
      tallyCell (1 - a) (1 - b) y predicted := by
  unfold tallyCell
  rw [List.zip_map, List.countP_map]
  apply List.countP_congr
  intro q hq
  obtain ⟨h1, h2⟩ := List.of_mem_zip hq
  have hu := validBinary_mem hy h1
  have hv := validBinary_mem hp h2
  rcases ha with ha | ha <;> rcases hb with hb | hb <;>
    rcases hu with hu | hu <;> rcases hv with hv | hv <;>
      simp [flipClass, Function.comp, Prod.map, ha, hb, hu, hv]

/-- Claim C8: swapping 0 ↔ 1 throughout both the label vector and the
prediction vector transposes the confusion counts (tp ↔ tn, fp ↔ fn) and
leaves accuracy = (tp + tn)/N unchanged. -/
theorem claim_C8_relabel (y predicted : List ℕ)
    (_hlen : y.length = predicted.length)
    (hy : validBinary y = true) (hp : validBinary predicted = true) :
    (confusionCells (y.map flipClass) (predicted.map flipClass)).tp =
      (confusionCells y predicted).tn ∧
    (confusionCells (y.map flipClass) (predicted.map flipClass)).fp =
      (confusionCells y predicted).fn ∧
    (confusionCells (y.map flipClass) (predicted.map flipClass)).tn =
      (confusionCells y predicted).tp ∧
    (confusionCells (y.map flipClass) (predicted.map flipClass)).fn =
      (confusionCells y predicted).fp ∧
    accuracy (confusionCells (y.map flipClass) (predicted.map flipClass)) =
      accuracy (confusionCells y predicted) := by
  have h11 := tallyCell_flip 1 1 (Or.inr rfl) (Or.inr rfl) y predicted hy hp
  have h01 := tallyCell_flip 0 1 (Or.inl rfl) (Or.inr rfl) y predicted hy hp
  have h00 := tallyCell_flip 0 0 (Or.inl rfl) (Or.inl rfl) y predicted hy hp
  have h10 := tallyCell_flip 1 0 (Or.inr rfl) (Or.inl rfl) y predicted hy hp
  norm_num at h11 h01 h00 h10
  refine ⟨h11, h01, h00, h10, ?_⟩
  simp only [accuracy, total_population, confusionCells, h11, h01, h00, h10]
  push_cast
  ring_nf

/-- Witness for C8 at labels [1, 0], predictions [1, 1]. -/
theorem claim_C8_witness :
    (confusionCells (([1, 0] : List ℕ).map flipClass)
        (([1, 1] : List ℕ).map flipClass)).tp =
      (confusionCells [1, 0] [1, 1]).tn ∧
    (confusionCells (([1, 0] : List ℕ).map flipClass)
        (([1, 1] : List ℕ).map flipClass)).fp =
      (confusionCells [1, 0] [1, 1]).fn ∧
    (confusionCells (([1, 0] : List ℕ).map flipClass)
        (([1, 1] : List ℕ).map flipClass)).tn =
      (confusionCells [1, 0] [1, 1]).tp ∧
    (confusionCells (([1, 0] : List ℕ).map flipClass)
        (([1, 1] : List ℕ).map flipClass)).fn =
      (confusionCells [1, 0] [1, 1]).fp ∧
    accuracy (confusionCells (([1, 0] : List ℕ).map flipClass)
        (([1, 1] : List ℕ).map flipClass)) =
      accuracy (confusionCells [1, 0] [1, 1]) :=
  claim_C8_relabel [1, 0] [1, 1] (by decide) (by decide) (by decide)

/-- Claim C9: when tn + fp > 0, the false-positive rate is fp/(tn + fp),
the specificity is tn/(tn + fp), and fp/(tn + fp) = 1 − specificity
exactly. -/
theorem claim_C9_fpr_complement (c : ConfusionCounts)
    (h : c.tn + c.fp ≠ 0) :
    falsePositiveRate c = .ok ((c.fp : ℚ) / ((c.tn : ℚ) + (c.fp : ℚ))) ∧
    specificity c = .ok ((c.tn : ℚ) / ((c.tn : ℚ) + (c.fp : ℚ))) ∧
    (c.fp : ℚ) / ((c.tn : ℚ) + (c.fp : ℚ)) =
      1 - (c.tn : ℚ) / ((c.tn : ℚ) + (c.fp : ℚ)) := by
  have hd : (c.tn : ℚ) + (c.fp : ℚ) ≠ 0 := by
    have h2 : ((c.tn + c.fp : ℕ) : ℚ) ≠ 0 := Nat.cast_ne_zero.mpr h
    push_cast at h2
    exact h2
  refine ⟨by simp [falsePositiveRate, h], by simp [specificity, h], ?_⟩
  field_simp

/-- Witness for C9 at counts tp = 0, fp = 1, tn = 1, fn = 0. -/
theorem claim_C9_witness :
    falsePositiveRate ⟨0, 1, 1, 0⟩ =
      .ok (((1 : ℕ) : ℚ) / (((1 : ℕ) : ℚ) + ((1 : ℕ) : ℚ))) ∧
    specificity ⟨0, 1, 1, 0⟩ =
      .ok (((1 : ℕ) : ℚ) / (((1 : ℕ) : ℚ) + ((1 : ℕ) : ℚ))) ∧
    ((1 : ℕ) : ℚ) / (((1 : ℕ) : ℚ) + ((1 : ℕ) : ℚ)) =
      1 - ((1 : ℕ) : ℚ) / (((1 : ℕ) : ℚ) + ((1 : ℕ) : ℚ)) :=
  claim_C9_fpr_complement ⟨0, 1, 1, 0⟩ (by decide)

/-- Source: the mean of the binary label column, `spam.is_spam.mean()`. -/
def labelMean (y : List ℕ) : ℚ :=
  (y.sum : ℚ) / (y.length : ℚ)

/-- Source: `baseline_acc = 1. - spam.is_spam.mean()`. -/
def baseline_acc (y : List ℕ) : ℚ :=
  1 - labelMean y

/-- Modelled from the spec: "Baseline accuracy: accuracy obtained by always
predicting the majority class", i.e. majority_class_N / total_N (also the
notebook's own markdown definition, which the code cell does not follow). -/
def majorityBaseline (y : List ℕ) : ℚ :=
  ((max (y.countP fun x => x == 0) (y.countP fun x => x == 1) : ℕ) : ℚ) /
    (y.length : ℚ)

/-- Claim C10 fails on the code: for the all-ones label vector [1, 1, 1] the
source's `baseline_acc = 1 - mean` computes 0, while the majority-class
baseline (the notebook's own documented definition
`baseline_accuracy = majority_class_N / total_N`) is 1.  The code computes
the class-0 fraction, which equals the majority fraction only when class 0
is the majority. -/
theorem claim_C10_baseline_code_bug :
    baseline_acc [1, 1, 1] = 0 ∧ majorityBaseline [1, 1, 1] = 1 ∧
    baseline_acc [1, 1, 1] ≠ majorityBaseline [1, 1, 1] := by
  norm_num [baseline_acc, labelMean, majorityBaseline]

/-- Number of positive examples in a label vector. -/
def positives (y : List ℕ) : ℕ := y.countP fun x => x == 1

/-- Number of negative examples in a label vector. -/
def negatives (y : List ℕ) : ℕ := y.countP fun x => x == 0

/-- Modelled from the spec: one ROC point — classify with the threshold rule,
tally, and take (fpr, tpr) = (fp/(tn + fp), tp/(tp + fn)).  The notebooks
delegate this sweep to an external library call. -/
def rocPointAt (y : List ℕ) (scores : List ℚ) (t : ℚ) : ℚ × ℚ :=
  let c := confusionCells y (thresholdClassify scores t)
  ((c.fp : ℚ) / ((c.tn : ℚ) + (c.fp : ℚ)),
   (c.tp : ℚ) / ((c.tp : ℚ) + (c.fn : ℚ)))

/-- Modelled from the spec: the candidate curve points — the conceptual
endpoints (classify everything negative gives (0, 0), classify everything
positive gives (1, 1)) plus one point per distinct score value. -/
def rocPoints (y : List ℕ) (scores : List ℚ) : List (ℚ × ℚ) :=
  (0, 0) :: (1, 1) :: scores.dedup.map (rocPointAt y scores)

/-- Insertion into a list sorted by ascending fpr, ties by ascending tpr. -/
def insertByFpr (p : ℚ × ℚ) : List (ℚ × ℚ) → List (ℚ × ℚ)
  | [] => [p]
  | q :: rest =>
      if p.1 < q.1 ∨ (p.1 = q.1 ∧ p.2 ≤ q.2) then p :: q :: rest
      else q :: insertByFpr p rest

/-- Insertion sort by ascending fpr, ties by ascending tpr. -/
def sortByFpr : List (ℚ × ℚ) → List (ℚ × ℚ)
  | [] => []
  | p :: rest => insertByFpr p (sortByFpr rest)

/-- Modelled from the spec: the RocCurve, ordered by ascending fpr with ties
broken by ascending tpr. -/
def rocCurve (y : List ℕ) (scores : List ℚ) : List (ℚ × ℚ) :=
  sortByFpr (rocPoints y scores)

/-- Trapezoidal integration of tpr over fpr across consecutive points:
sum of (fpr[i+1] − fpr[i]) · (tpr[i+1] + tpr[i]) / 2. -/
def trapezoid : List (ℚ × ℚ) → ℚ
  | [] => 0
  | [_] => 0
  | p :: q :: rest => (q.1 - p.1) * (q.2 + p.2) / 2 + trapezoid (q :: rest)

/-- Modelled from the spec: AUC of the ROC curve, with the
DegenerateInputError guard when only one class is present. -/
def rocAuc (y : List ℕ) (scores : List ℚ) : Except MetricError ℚ :=
  if positives y = 0 ∨ negatives y = 0 then .error .degenerateInputError
  else .ok (trapezoid (rocCurve y scores))

theorem dedup_map_of_injective {g : ℚ → ℚ} (hg : Function.Injective g) :
    ∀ l : List ℚ, (l.map g).dedup = l.dedup.map g := by
  intro l
  induction l with
  | nil => simp
  | cons a tl ih =>
    by_cases h : a ∈ tl
    · rw [List.map_cons, List.dedup_cons_of_mem (List.mem_map_of_mem g h),
        List.dedup_cons_of_mem h, ih]
    · rw [List.map_cons, List.dedup_cons_of_not_mem,
        List.dedup_cons_of_not_mem h, List.map_cons, ih]
      intro hmem
      obtain ⟨b, hb, hgb⟩ := List.mem_map.mp hmem
      exact h (hg hgb ▸ hb)

theorem thresholdClassify_of_strictMono (g : ℚ → ℚ) (hg : StrictMono g)
    (scores : List ℚ) (v : ℚ) :
    thresholdClassify (scores.map g) (g v) = thresholdClassify scores v := by
  unfold thresholdClassify
  rw [List.map_map]
  have hfun : ((fun s => if g v ≤ s then (1 : ℕ) else 0) ∘ g) =
      fun s => if v ≤ s then (1 : ℕ) else 0 := by
    funext s
    simp [Function.comp, hg.le_iff_le]
  rw [hfun]

theorem rocPointAt_of_strictMono (y : List ℕ) (scores : List ℚ)
    (g : ℚ → ℚ) (hg : StrictMono g) (v : ℚ) :
    rocPointAt y (scores.map g) (g v) = rocPointAt y scores v := by
  unfold rocPointAt
  rw [thresholdClassify_of_strictMono g hg]

theorem rocPoints_of_strictMono (y : List ℕ) (scores : List ℚ)
    (g : ℚ → ℚ) (hg : StrictMono g) :
    rocPoints y (scores.map g) = rocPoints y scores := by
  unfold rocPoints
  rw [dedup_map_of_injective hg.injective, List.map_map]
  have hfun : rocPointAt y (scores.map g) ∘ g = rocPointAt y scores :=
    funext fun v => rocPointAt_of_strictMono y scores g hg v
  rw [hfun]

/-- Claim C7: the AUC computed from the ROC curve is invariant under any
strictly increasing transform of the score vector — it depends only on the
rank order of the scores. -/
theorem claim_C7_auc_rank_invariant (y : List ℕ) (scores : List ℚ)
    (g : ℚ → ℚ) (hg : StrictMono g) :
    rocAuc y (scores.map g) = rocAuc y scores := by
  have hcurve : rocCurve y (scores.map g) = rocCurve y scores := by
    unfold rocCurve
    rw [rocPoints_of_strictMono y scores g hg]
  unfold rocAuc
  rw [hcurve]

/-- Witness for C7: the affine transform x ↦ x + 1 is strictly increasing and
leaves the AUC of scores [9/10, 1/10] against labels [1, 0] unchanged. -/
theorem claim_C7_witness :
    rocAuc [1, 0] ([(9 : ℚ) / 10, 1 / 10].map fun x => x + 1) =
      rocAuc [1, 0] [(9 : ℚ) / 10, 1 / 10] :=
  claim_C7_auc_rank_invariant [1, 0] [(9 : ℚ) / 10, 1 / 10]
    (fun x => x + 1) (fun _ _ hab => add_lt_add_right hab 1)

end ClassificationEval
